import Mathlib

/-!
Verification development for the `frac` package, a lightweight
non-simplifying rational (fraction) value type.

The embedding below translates the source into Lean:

* Go `int` arithmetic is modelled by ideal integers `Int`; the Go truncated
  division `/` and remainder `%` are `Int.tdiv` and `Int.tmod`.
* A separate machine-precision model (`Frac.wrap64`, `Frac.absMach`,
  `Frac.F.AbsMach`) captures 64-bit twos-complement wrap-around where a
  property is specifically about overflow behaviour.
* Code that can raise a run-time divide-by-zero fault is additionally
  embedded as an `Option`-valued function (suffix `O`): `none` means the
  Go code faults on that input. The guard `y != 0` of the `GCD` loop makes
  its `%` fault-free, so `GCD` needs no `Option` variant.
-/

namespace Frac

/-- Helper `abs` from the source: distance of the argument from zero,
in the ideal-integer model. -/
def abs (x : Int) : Int := if x < 0 then -x else x

/-- Source `GCD`: Euclidean remainder loop; the final operand is returned
through `abs`. The Go `%` is truncated remainder (`Int.tmod`); the loop
terminates because the remainder magnitude is strictly below that of the
divisor. -/
def GCD (x y : Int) : Int :=
  if y = 0 then abs x
  else GCD y (Int.tmod x y)
termination_by y.natAbs
decreasing_by
  rename_i h
  have habs : (Int.tmod x y).natAbs = x.natAbs % y.natAbs := by
    cases x <;> cases y <;>
      simp only [Int.tmod, Int.natAbs_neg] <;>
        simp only [Int.natAbs, Nat.succ_eq_add_one]
  rw [habs]
  exact Nat.mod_lt _ (Int.natAbs_pos.mpr h)

/-- Source `LCM`: short-circuit when the operands are equal or negations of
each other; otherwise divide by the gcd before multiplying. -/
def LCM (x y : Int) : Int :=
  if x = y ∨ x = -y then x
  else abs (Int.tdiv x (GCD x y) * y)

/-- Source type `F`: a fraction as a pair of integers with no invariants. -/
structure F where
  N : Int
  D : Int
deriving DecidableEq, Repr

/-- Source method `Mul`. -/
def F.Mul (x y : F) : F := ⟨x.N * y.N, x.D * y.D⟩

/-- Source method `Div`: a negative divisor numerator is first negated
together with the divisor denominator. -/
def F.Div (x y : F) : F :=
  if y.N < 0 then ⟨x.N * (-y.D), x.D * (-y.N)⟩
  else ⟨x.N * y.D, x.D * y.N⟩

/-- Source method `Add`: fast path on equal denominators, otherwise
cross-multiply (the second product uses the original `x.D`). -/
def F.Add (x y : F) : F :=
  if x.D ≠ y.D then ⟨x.N * y.D + y.N * x.D, x.D * y.D⟩
  else ⟨x.N + y.N, x.D⟩

/-- Source method `Sub`: same as `Add` with subtraction. -/
def F.Sub (x y : F) : F :=
  if x.D ≠ y.D then ⟨x.N * y.D - y.N * x.D, x.D * y.D⟩
  else ⟨x.N - y.N, x.D⟩

/-- Source method `Reduce` in the total model: divide both fields by their
gcd and flip signs if the resulting denominator is negative. In Go the two
divisions fault when the gcd is zero; `F.ReduceO` tracks that fault. -/
def F.Reduce (x : F) : F :=
  let d := GCD x.N x.D
  let n := Int.tdiv x.N d
  let dd := Int.tdiv x.D d
  if dd < 0 then ⟨-n, -dd⟩ else ⟨n, dd⟩

/-- Source method `NormTo` in the total model: rescale `x` to the least
common multiple of `x.Reduce().D` and `y.D`, scaling by the original
(non-reduced) `x.D`. `F.NormToO` tracks the possible faults. -/
def F.NormTo (x y : F) : F :=
  if x.D = y.D then x
  else
    let m := LCM x.Reduce.D y.D
    ⟨Int.tdiv m x.D * x.N, m⟩

/-- Source method `Inv`: swap the fields, canonicalizing sign onto the
numerator of the result. -/
def F.Inv (x : F) : F := if x.N < 0 then ⟨-x.D, -x.N⟩ else ⟨x.D, x.N⟩

/-- Source method `Abs` in the ideal-integer model: componentwise `abs`. -/
def F.Abs (x : F) : F := ⟨abs x.N, abs x.D⟩

/-- Source method `Cmp`: cross-multiply the numerators when the
denominators differ (the second product uses the original `x.D`), then
compare, yielding -1, 0 or +1. -/
def F.Cmp (x y : F) : Int :=
  let a := if x.D ≠ y.D then x.N * y.D else x.N
  let b := if x.D ≠ y.D then y.N * x.D else y.N
  if a < b then -1 else if b < a then 1 else 0

/-- Source free function `Norm` in the total model: fast path on equal
denominators; otherwise take the lcm of both reduced denominators, clamp it
sequentially against the original denominators, and rescale both inputs.
`Frac.NormO` tracks the possible faults. -/
def Norm (x y : F) : F × F :=
  if x.D = y.D then (x, y)
  else
    let m0 := LCM x.Reduce.D y.Reduce.D
    let m := if m0 ≤ x.D then x.D else if m0 < y.D then y.D else m0
    (⟨Int.tdiv m x.D * x.N, m⟩, ⟨Int.tdiv m y.D * y.N, m⟩)

/-- Go integer division with the run-time fault made explicit: `none`
exactly when the divisor is zero. -/
def checkedTdiv (a b : Int) : Option Int :=
  if b = 0 then none else some (Int.tdiv a b)

/-- Source method `Reduce` with its divide-by-zero fault tracked: both
divisions go through `checkedTdiv`. -/
def F.ReduceO (x : F) : Option F :=
  let d := GCD x.N x.D
  (checkedTdiv x.N d).bind fun n =>
    (checkedTdiv x.D d).map fun dd =>
      if dd < 0 then ⟨-n, -dd⟩ else ⟨n, dd⟩

/-- Source `LCM` with its division fault tracked. -/
def LCMO (x y : Int) : Option Int :=
  if x = y ∨ x = -y then some x
  else (checkedTdiv x (GCD x y)).map fun q => abs (q * y)

/-- Source method `NormTo` with every fault point tracked: the `Reduce`
call, the `LCM` call, and the division by the original `x.D`. -/
def F.NormToO (x y : F) : Option F :=
  if x.D = y.D then some x
  else
    x.ReduceO.bind fun rx =>
      (LCMO rx.D y.D).bind fun m =>
        (checkedTdiv m x.D).map fun q => ⟨q * x.N, m⟩

/-- Source free function `Norm` with every fault point tracked. -/
def NormO (x y : F) : Option (F × F) :=
  if x.D = y.D then some (x, y)
  else
    x.ReduceO.bind fun rx =>
      y.ReduceO.bind fun ry =>
        (LCMO rx.D ry.D).bind fun m0 =>
          let m := if m0 ≤ x.D then x.D else if m0 < y.D then y.D else m0
          (checkedTdiv m x.D).bind fun qx =>
            (checkedTdiv m y.D).map fun qy =>
              (⟨qx * x.N, m⟩, ⟨qy * y.N, m⟩)

/-- Source method `Assert` with its fault tracked: it evaluates `1 / x.D`
purely for the fault and returns `x` unchanged. -/
def F.AssertO (x : F) : Option F := (checkedTdiv 1 x.D).map fun _ => x

/-- Twos-complement wrap of an ideal integer into the 64-bit machine
range, for the machine-precision model of Go `int`. -/
def wrap64 (z : Int) : Int := (z + 2 ^ 63) % 2 ^ 64 - 2 ^ 63

/-- Helper `abs` at machine precision: the unary minus wraps. -/
def absMach (x : Int) : Int := if x < 0 then wrap64 (-x) else x

/-- Source method `Abs` at machine precision: componentwise wrapped `abs`. -/
def F.AbsMach (x : F) : F := ⟨absMach x.N, absMach x.D⟩

/-- Smallest value of the 64-bit machine integer type. -/
def minInt : Int := -(2 ^ 63)

/-- Accumulating value of a decimal digit string: `none` as soon as a
character is not a decimal digit. -/
def digitsValAux (acc : Nat) : List Char → Option Nat
  | [] => some acc
  | c :: rest =>
      if c.isDigit then digitsValAux (acc * 10 + (c.toNat - Char.toNat '0')) rest
      else none

/-- The Go `strconv.Atoi` over ideal integers: an optional single sign
followed by one or more decimal digits; anything else (including the empty
string) is an error. Range errors are outside the ideal-integer model. -/
def atoi : List Char → Option Int
  | [] => none
  | '-' :: rest =>
      if rest = [] then none
      else (digitsValAux 0 rest).map fun n => -(n : Int)
  | '+' :: rest =>
      if rest = [] then none
      else (digitsValAux 0 rest).map fun n => (n : Int)
  | s => (digitsValAux 0 s).map fun n => (n : Int)

/-- Split at the first '/' as the loop in the source `Parse` does: the
characters before it and the characters after it. When no '/' occurs the
whole input is the first component and the second is empty — exactly as in
the source, where `t` keeps its initial empty value. -/
def splitSlash : List Char → List Char × List Char
  | [] => ([], [])
  | c :: rest =>
      if c = '/' then ([], rest)
      else
        let p := splitSlash rest
        (c :: p.1, p.2)

/-- Source `Parse`: scan for the first '/'; the numerator substring is
parsed unconditionally, and the denominator substring only when it is
nonempty (the field was pre-initialized to 1). `none` models the returned
error. -/
def Parse (s : List Char) : Option F :=
  let p := splitSlash s
  match atoi p.1 with
  | none => none
  | some n =>
      if p.2 = [] then some ⟨n, 1⟩
      else (atoi p.2).map fun d => ⟨n, d⟩

/-- Modelled from the spec text for `Parse` (for comparison with the
source `Parse`): when a '/' is present, both substrings must parse as
integers; the denominator defaults to 1 only when no '/' is present. -/
def parseClaim (s : List Char) : Option F :=
  if '/' ∈ s then
    let p := splitSlash s
    match atoi p.1, atoi p.2 with
    | some n, some d => some ⟨n, d⟩
    | _, _ => none
  else (atoi s).map fun n => ⟨n, 1⟩

/-- Amended reading of the spec text for `Parse`: the numerator is the
longest prefix without '/', the denominator substring is what follows the
first '/', and an empty denominator substring keeps the default 1. -/
def parseAmended (s : List Char) : Option F :=
  let ns := s.takeWhile fun c => c != '/'
  let ds := (s.dropWhile fun c => c != '/').tail
  match atoi ns with
  | none => none
  | some n =>
      if ds = [] then some ⟨n, 1⟩
      else (atoi ds).map fun d => ⟨n, d⟩

/-- Sequential clamp described by the spec for `Norm`: raise `m` to `x.D`
when `m ≤ x.D`; only otherwise raise it to `y.D` when `m < y.D`. -/
def clampSeq (m xD yD : Int) : Int :=
  if m ≤ xD then xD else if m < yD then yD else m

/-- Modelled from the spec text for `Norm` (for comparison with the
source `Norm`): lcm of the two reduced denominators, sequentially clamped,
then both fractions rescaled. -/
def normSpec (x y : F) : F × F :=
  if x.D = y.D then (x, y)
  else
    let m := clampSeq (LCM x.Reduce.D y.Reduce.D) x.D y.D
    (⟨Int.tdiv m x.D * x.N, m⟩, ⟨Int.tdiv m y.D * y.N, m⟩)

/-- Magnitude of Go truncated remainder: `|x % y| = |x| mod |y|`. -/
theorem natAbs_tmod (x y : Int) : (Int.tmod x y).natAbs = x.natAbs % y.natAbs := by
  cases x <;> cases y <;>
    simp only [Int.tmod, Int.natAbs_neg] <;>
      simp only [Int.natAbs, Nat.succ_eq_add_one]

/-- The Euclidean step strictly shrinks the magnitude of the divisor. -/
theorem natAbs_tmod_lt (x y : Int) (h : y ≠ 0) : (Int.tmod x y).natAbs < y.natAbs := by
  rw [natAbs_tmod]
  exact Nat.mod_lt _ (Int.natAbs_pos.mpr h)

/-- The source helper `abs` agrees with the mathematical absolute value. -/
theorem abs_eq_natAbs (x : Int) : abs x = (x.natAbs : Int) := by
  unfold abs
  rcases lt_or_le x 0 with h | h
  · rw [if_pos h, Int.natCast_natAbs, abs_of_neg h]
  · rw [if_neg (not_lt.mpr h), Int.natCast_natAbs, abs_of_nonneg h]

/-- The Euclidean step preserves the gcd: `gcd y (x % y) = gcd x y` for
the Go truncated remainder. -/
theorem gcd_tmod_right (x y : Int) : Int.gcd y (Int.tmod x y) = Int.gcd x y := by
  have hx : x = Int.tmod x y + y * Int.tdiv x y := by
    rw [Int.tmod_def]; ring
  apply Nat.dvd_antisymm
  · rw [← Int.natCast_dvd_natCast]
    apply Int.dvd_gcd
    · conv_rhs => rw [hx]
      exact dvd_add Int.gcd_dvd_right (Int.gcd_dvd_left.mul_right _)
    · exact Int.gcd_dvd_left
  · rw [← Int.natCast_dvd_natCast]
    apply Int.dvd_gcd
    · exact Int.gcd_dvd_right
    · rw [Int.tmod_def]
      exact dvd_sub Int.gcd_dvd_left (Int.gcd_dvd_right.mul_right _)

/-- Auxiliary strong induction for `GCD_eq_gcd`. -/
theorem GCD_eq_gcd_aux : ∀ (n : Nat) (x y : Int), y.natAbs ≤ n →
    GCD x y = (Int.gcd x y : Int) := by
  intro n
  induction n with
  | zero =>
    intro x y hy
    have h0 : y = 0 := Int.natAbs_eq_zero.mp (Nat.le_zero.mp hy)
    subst h0
    rw [GCD, if_pos rfl, abs_eq_natAbs, Int.gcd_zero_right]
  | succ n ih =>
    intro x y hy
    rw [GCD]
    by_cases h : y = 0
    · subst h
      rw [if_pos rfl, abs_eq_natAbs, Int.gcd_zero_right]
    · have hlt := natAbs_tmod_lt x y h
      rw [if_neg h, ih y (Int.tmod x y) (by omega), gcd_tmod_right]

/-- The source `GCD` computes the mathematical gcd (cast to `Int`); in
particular it never returns a negative value, despite the source comment. -/
theorem GCD_eq_gcd (x y : Int) : GCD x y = (Int.gcd x y : Int) :=
  GCD_eq_gcd_aux y.natAbs x y le_rfl

/-- C9: the `GCD` Euclidean remainder loop is a total function of any two
integers: its defining equation holds everywhere, and each iteration
strictly decreases the magnitude of the second operand, which is the
well-founded measure justifying termination. -/
theorem C9_gcd_total (x y : Int) :
    GCD x y = (if y = 0 then abs x else GCD y (Int.tmod x y))
    ∧ (y ≠ 0 → (Int.tmod x y).natAbs < y.natAbs) :=
  ⟨by rw [GCD], natAbs_tmod_lt x y⟩

/-- Witness for C9 at `x = 12`, `y = 8`. -/
theorem C9_witness :
    GCD 12 8 = GCD 8 (Int.tmod 12 8) ∧ (Int.tmod 12 8).natAbs < (8 : Int).natAbs := by
  refine ⟨?_, (C9_gcd_total 12 8).2 (by decide)⟩
  have h := (C9_gcd_total 12 8).1
  simpa using h

/-- C3: `Norm` returns both inputs unchanged on equal denominators, and
otherwise follows exactly the computation the spec states (lcm of the two reduced
denominators, sequential clamp, rescale both); the concrete instance
`Norm(F{12,2}, F{3,4}) = (F{24,4}, F{3,4})` holds. -/
theorem C3_norm_follows_spec :
    (∀ x y : F, Norm x y = normSpec x y)
    ∧ Norm ⟨12, 2⟩ ⟨3, 4⟩ = (⟨24, 4⟩, ⟨3, 4⟩) := by
  constructor
  · intro x y
    simp only [Norm, normSpec, clampSeq]
  · simp only [Norm, F.Reduce, LCM, GCD_eq_gcd]
    decide

/-- C1 fails on the code: `Div` can shrink the denominator magnitude even
with nonzero denominators (here from 5 to 1), and `Mul` can when one
denominator is zero. -/
theorem C1_counterexample :
    (F.Div ⟨1, 1⟩ ⟨1, 5⟩).D.natAbs < max (1 : Int).natAbs (5 : Int).natAbs
    ∧ (F.Mul ⟨1, 2⟩ ⟨1, 0⟩).D.natAbs < max (2 : Int).natAbs (0 : Int).natAbs := by
  decide

/-- C1 amended: with both denominators nonzero, the denominators of
`Add`, `Sub` and `Mul` never fall below `max |x.D| |y.D|` in magnitude in
the ideal-integer (no-overflow) model; `Div` is excluded because its
result denominator is `x.D * |y.N|`, which can be smaller. -/
theorem C1_amended_denominator_growth (x y : F) (hx : x.D ≠ 0) (hy : y.D ≠ 0) :
    max x.D.natAbs y.D.natAbs ≤ (F.Add x y).D.natAbs
    ∧ max x.D.natAbs y.D.natAbs ≤ (F.Sub x y).D.natAbs
    ∧ max x.D.natAbs y.D.natAbs ≤ (F.Mul x y).D.natAbs := by
  have hx1 : 0 < x.D.natAbs := Int.natAbs_pos.mpr hx
  have hy1 : 0 < y.D.natAbs := Int.natAbs_pos.mpr hy
  have hmul : max x.D.natAbs y.D.natAbs ≤ (x.D * y.D).natAbs := by
    rw [Int.natAbs_mul]
    exact max_le (Nat.le_mul_of_pos_right _ hy1) (Nat.le_mul_of_pos_left _ hx1)
  have hcase : ∀ z : F, (x.D ≠ y.D → z.D = x.D * y.D) → (x.D = y.D → z.D = x.D) →
      max x.D.natAbs y.D.natAbs ≤ z.D.natAbs := by
    intro z h1 h2
    by_cases h : x.D = y.D
    · rw [h2 h, h, max_self]
    · rw [h1 h]
      exact hmul
  refine ⟨?_, ?_, ?_⟩
  · exact hcase _ (fun h => by simp [F.Add, h]) (fun h => by simp [F.Add, h])
  · exact hcase _ (fun h => by simp [F.Sub, h]) (fun h => by simp [F.Sub, h])
  · exact hmul

/-- Witness for the amended C1 at `x = 1/2`, `y = 1/3`. -/
theorem C1_amended_witness :
    max (2 : Int).natAbs (3 : Int).natAbs ≤ (F.Add ⟨1, 2⟩ ⟨1, 3⟩).D.natAbs
    ∧ max (2 : Int).natAbs (3 : Int).natAbs ≤ (F.Sub ⟨1, 2⟩ ⟨1, 3⟩).D.natAbs
    ∧ max (2 : Int).natAbs (3 : Int).natAbs ≤ (F.Mul ⟨1, 2⟩ ⟨1, 3⟩).D.natAbs :=
  C1_amended_denominator_growth ⟨1, 2⟩ ⟨1, 3⟩ (by decide) (by decide)

/-- C10: when a field is the minimum machine integer, the wrapped negation
returns the value itself, so machine-level `Abs` leaves the field
unchanged and its result can have a negative numerator or denominator. -/
theorem C10_abs_minInt (x : F) :
    (x.N = minInt → (F.AbsMach x).N = x.N ∧ (F.AbsMach x).N < 0)
    ∧ (x.D = minInt → (F.AbsMach x).D = x.D ∧ (F.AbsMach x).D < 0) := by
  have key : absMach minInt = minInt := by decide
  have hneg : minInt < 0 := by decide
  constructor
  · intro h
    simp only [F.AbsMach, h]
    exact ⟨key, key ▸ hneg⟩
  · intro h
    simp only [F.AbsMach, h]
    exact ⟨key, key ▸ hneg⟩

/-- Witness for C10 at `x = F{minInt, 2}`. -/
theorem C10_witness :
    (F.AbsMach ⟨minInt, 2⟩).N = (⟨minInt, 2⟩ : F).N
    ∧ (F.AbsMach ⟨minInt, 2⟩).N < 0 :=
  (C10_abs_minInt ⟨minInt, 2⟩).1 rfl

/-- C7 fails on the code: on input "3/" the denominator substring is the
empty string, which is not a valid integer, yet `Parse` succeeds with the
default denominator 1 while the spec-modelled behaviour fails. -/
theorem C7_counterexample :
    Parse "3/".toList = some ⟨3, 1⟩ ∧ parseClaim "3/".toList = none := by
  decide

/-- C7 amended: `Parse` splits at the first '/', parses base-10 signed
integers without trimming whitespace, defaults the denominator to 1 when
no '/' is present or when the substring after it is empty, and fails
exactly when the numerator substring, or a nonempty denominator
substring, is not a valid integer. -/
theorem C7_amended_parse (s : List Char) : Parse s = parseAmended s := by
  have hsplit : ∀ t : List Char,
      splitSlash t
        = (t.takeWhile fun c => c != '/', (t.dropWhile fun c => c != '/').tail) := by
    intro t
    induction t with
    | nil => rfl
    | cons c rest ih =>
      by_cases h : c = '/'
      · subst h
        simp [splitSlash, List.takeWhile_cons, List.dropWhile_cons]
      · simp [splitSlash, List.takeWhile_cons, List.dropWhile_cons, h, ih]
  simp only [Parse, parseAmended, hsplit]

/-- C8: away from the `x = y` / `x = -y` short-circuit (and for nonzero
operands), `LCM(a,b) * GCD(a,b) = |a*b|`; on the short-circuit `LCM`
returns its first argument, preserving its sign and magnitude. -/
theorem C8_lcm_gcd (a b : Int) :
    (a ≠ 0 → b ≠ 0 → a.natAbs ≠ b.natAbs →
      LCM a b * GCD a b = ((a * b).natAbs : Int))
    ∧ ((a = b ∨ a = -b) → LCM a b = a) := by
  constructor
  · intro ha _ hab
    have hne : ¬(a = b ∨ a = -b) := by
      rintro (rfl | rfl)
      · exact hab rfl
      · exact hab (Int.natAbs_neg b)
    unfold LCM
    rw [if_neg hne, GCD_eq_gcd, abs_eq_natAbs]
    have hg : (Int.gcd a b : Int) ∣ a := Int.gcd_dvd_left
    have hq : Int.tdiv a (Int.gcd a b) * (Int.gcd a b : Int) = a := Int.tdiv_mul_cancel hg
    rw [Int.natCast_natAbs, Int.natCast_natAbs]
    conv_lhs =>
      rhs
      rw [← abs_of_nonneg (show (0 : Int) ≤ (Int.gcd a b : Int) from Int.natCast_nonneg _)]
    rw [← abs_mul]
    congr 1
    calc Int.tdiv a (Int.gcd a b) * b * (Int.gcd a b : Int)
        = Int.tdiv a (Int.gcd a b) * (Int.gcd a b : Int) * b := by ring
      _ = a * b := by rw [hq]
  · intro h
    unfold LCM
    rw [if_pos h]

/-- Witness for C8 at `(4, 6)` for the identity and `(5, -5)` for the
short-circuit. -/
theorem C8_witness :
    LCM 4 6 * GCD 4 6 = (((4 : Int) * 6).natAbs : Int) ∧ LCM 5 (-5) = 5 :=
  ⟨(C8_lcm_gcd 4 6).1 (by decide) (by decide) (by decide),
   (C8_lcm_gcd 5 (-5)).2 (Or.inr (by decide))⟩

/-- The source `GCD` is zero exactly when both operands are zero. -/
theorem GCD_eq_zero_iff (x y : Int) : GCD x y = 0 ↔ x = 0 ∧ y = 0 := by
  rw [GCD_eq_gcd, Int.natCast_eq_zero, Int.gcd_eq_zero_iff]

/-- Unfolding of the total `Reduce` with the let-bindings resolved. -/
theorem Reduce_def (x : F) :
    x.Reduce
      = if Int.tdiv x.D (GCD x.N x.D) < 0
          then ⟨-Int.tdiv x.N (GCD x.N x.D), -Int.tdiv x.D (GCD x.N x.D)⟩
          else ⟨Int.tdiv x.N (GCD x.N x.D), Int.tdiv x.D (GCD x.N x.D)⟩ := rfl

/-- Method `ReduceO` faults exactly on the all-zero fraction (the gcd is zero and
both divisions divide by zero). -/
theorem ReduceO_eq_none_iff (x : F) : x.ReduceO = none ↔ x.N = 0 ∧ x.D = 0 := by
  rw [← GCD_eq_zero_iff x.N x.D]
  unfold F.ReduceO checkedTdiv
  by_cases h : GCD x.N x.D = 0 <;> simp [h]

/-- Away from the all-zero fraction, `ReduceO` succeeds and agrees with the
total `Reduce`. -/
theorem ReduceO_eq_some (x : F) (h : ¬(x.N = 0 ∧ x.D = 0)) :
    x.ReduceO = some x.Reduce := by
  have hg : GCD x.N x.D ≠ 0 := fun h0 => h ((GCD_eq_zero_iff _ _).mp h0)
  unfold F.ReduceO F.Reduce checkedTdiv
  simp [hg]

/-- The denominator returned by `Reduce` is never negative. -/
theorem Reduce_D_nonneg (x : F) : 0 ≤ x.Reduce.D := by
  rw [Reduce_def]
  split
  · rename_i h
    simp only
    omega
  · rename_i h
    simp only
    omega

/-- After a successful `Reduce` the two fields are coprime. -/
theorem Reduce_gcd_one (x : F) (h : ¬(x.N = 0 ∧ x.D = 0)) :
    Int.gcd x.Reduce.N x.Reduce.D = 1 := by
  have hg : Int.gcd x.N x.D ≠ 0 := fun h0 => h (Int.gcd_eq_zero_iff.mp h0)
  have hpos : 0 < Int.gcd x.N x.D := Nat.pos_of_ne_zero hg
  have hdvN : (Int.gcd x.N x.D : Int) ∣ x.N := Int.gcd_dvd_left
  have hdvD : (Int.gcd x.N x.D : Int) ∣ x.D := Int.gcd_dvd_right
  have key := Int.gcd_div_gcd_div_gcd hpos
  rw [Reduce_def, GCD_eq_gcd, Int.tdiv_eq_ediv_of_dvd hdvN, Int.tdiv_eq_ediv_of_dvd hdvD]
  split
  · simp only [Int.neg_gcd, Int.gcd_neg]
    exact key
  · exact key

/-- A fraction whose fields are already coprime with non-negative
denominator is a fixed point of `Reduce`. -/
theorem Reduce_fixed (x : F) (h1 : Int.gcd x.N x.D = 1) (h2 : 0 ≤ x.D) :
    x.Reduce = x := by
  rw [Reduce_def, GCD_eq_gcd, h1]
  rw [show ((1 : Nat) : Int) = 1 from rfl, Int.tdiv_one, Int.tdiv_one, if_neg (not_lt.mpr h2)]

/-- C4: `Reduce` is idempotent, faults included: reducing a second time
changes nothing, and the all-zero fraction faults identically on both
sides. -/
theorem C4_reduce_idempotent (x : F) : x.ReduceO.bind F.ReduceO = x.ReduceO := by
  by_cases h : x.N = 0 ∧ x.D = 0
  · rw [(ReduceO_eq_none_iff x).mpr h]
    rfl
  · rw [ReduceO_eq_some x h, Option.some_bind]
    have hg1 : Int.gcd x.Reduce.N x.Reduce.D = 1 := Reduce_gcd_one x h
    have hne : ¬(x.Reduce.N = 0 ∧ x.Reduce.D = 0) := by
      rintro ⟨h1, h2⟩
      rw [h1, h2] at hg1
      simp at hg1
    rw [ReduceO_eq_some _ hne, Reduce_fixed _ hg1 (Reduce_D_nonneg x)]

/-- Method `Assert` faults exactly on a zero denominator. -/
theorem AssertO_eq_none_iff (x : F) : x.AssertO = none ↔ x.D = 0 := by
  unfold F.AssertO checkedTdiv
  by_cases h : x.D = 0 <;> simp [h]

/-- Function `LCM` never faults: its division by the gcd only happens away from the
`x = y` short-circuit, where the gcd cannot be zero. -/
theorem LCMO_isSome (x y : Int) : (LCMO x y).isSome = true := by
  unfold LCMO
  by_cases h : x = y ∨ x = -y
  · simp [h]
  · have hg : GCD x y ≠ 0 := by
      intro h0
      rcases (GCD_eq_zero_iff x y).mp h0 with ⟨rfl, rfl⟩
      exact h (Or.inl rfl)
    simp [h, checkedTdiv, hg]

/-- Method `NormTo` faults exactly when the receiver denominator is zero and
the argument denominator is not (either `Reduce` faults at the all-zero receiver, or
the rescale divides by the zero `x.D`). -/
theorem NormToO_eq_none_iff (x y : F) :
    F.NormToO x y = none ↔ x.D = 0 ∧ y.D ≠ 0 := by
  unfold F.NormToO
  by_cases h : x.D = y.D
  · rw [if_pos h]
    constructor
    · intro hc
      simp at hc
    · rintro ⟨h0, hne⟩
      exact absurd (h ▸ h0) hne
  · rw [if_neg h]
    by_cases hx : x.D = 0
    · have hy : y.D ≠ 0 := fun h0 => h (hx.trans h0.symm)
      refine ⟨fun _ => ⟨hx, hy⟩, fun _ => ?_⟩
      by_cases hn : x.N = 0
      · rw [(ReduceO_eq_none_iff x).mpr ⟨hn, hx⟩]
        rfl
      · rw [ReduceO_eq_some x (fun hb => hn hb.1), Option.some_bind]
        obtain ⟨m, hm⟩ := Option.isSome_iff_exists.mp (LCMO_isSome x.Reduce.D y.D)
        rw [hm, Option.some_bind]
        simp [checkedTdiv, hx]
    · have hrx : x.ReduceO = some x.Reduce := ReduceO_eq_some x (fun hb => hx hb.2)
      rw [hrx, Option.some_bind]
      obtain ⟨m, hm⟩ := Option.isSome_iff_exists.mp (LCMO_isSome x.Reduce.D y.D)
      rw [hm, Option.some_bind]
      simp [checkedTdiv, hx]

/-- Function `Norm` faults exactly when the denominators differ and at least one of
them is zero. -/
theorem NormO_eq_none_iff (x y : F) :
    NormO x y = none ↔ x.D ≠ y.D ∧ (x.D = 0 ∨ y.D = 0) := by
  unfold NormO
  by_cases h : x.D = y.D
  · rw [if_pos h]
    simp [h]
  · rw [if_neg h]
    simp only [ne_eq, h, not_false_iff, true_and]
    by_cases hx : x.D = 0
    · refine ⟨fun _ => Or.inl hx, fun _ => ?_⟩
      by_cases hn : x.N = 0
      · rw [(ReduceO_eq_none_iff x).mpr ⟨hn, hx⟩]
        rfl
      · rw [ReduceO_eq_some x (fun hb => hn hb.1), Option.some_bind]
        by_cases hyz : y.N = 0 ∧ y.D = 0
        · rw [(ReduceO_eq_none_iff y).mpr hyz]
          rfl
        · rw [ReduceO_eq_some y hyz, Option.some_bind]
          obtain ⟨m0, hm0⟩ :=
            Option.isSome_iff_exists.mp (LCMO_isSome x.Reduce.D y.Reduce.D)
          rw [hm0, Option.some_bind]
          simp [checkedTdiv, hx]
    · by_cases hy : y.D = 0
      · refine ⟨fun _ => Or.inr hy, fun _ => ?_⟩
        rw [ReduceO_eq_some x (fun hb => hx hb.2), Option.some_bind]
        by_cases hn : y.N = 0
        · rw [(ReduceO_eq_none_iff y).mpr ⟨hn, hy⟩]
          rfl
        · rw [ReduceO_eq_some y (fun hb => hn hb.1), Option.some_bind]
          obtain ⟨m0, hm0⟩ :=
            Option.isSome_iff_exists.mp (LCMO_isSome x.Reduce.D y.Reduce.D)
          rw [hm0, Option.some_bind]
          simp [checkedTdiv, hx, hy]
      · rw [ReduceO_eq_some x (fun hb => hx hb.2), Option.some_bind,
          ReduceO_eq_some y (fun hb => hy hb.2), Option.some_bind]
        obtain ⟨m0, hm0⟩ :=
          Option.isSome_iff_exists.mp (LCMO_isSome x.Reduce.D y.Reduce.D)
        rw [hm0, Option.some_bind]
        simp [checkedTdiv, hx, hy]

/-- C2 fails on the code: `NormTo` faults on `F{1,0}.NormTo(F{1,2})` (the
rescale divides by the zero `x.D`) although neither operand is the
all-zero fraction and the claim says `NormTo` never faults. -/
theorem C2_counterexample : F.NormToO ⟨1, 0⟩ ⟨1, 2⟩ = none := by
  simp only [F.NormToO, F.ReduceO, LCMO, checkedTdiv, GCD_eq_gcd]
  decide

/-- C2 amended: `Assert` faults exactly on a zero denominator; `Reduce`
faults exactly on the all-zero fraction; `LCM` (and hence `GCD`) never
faults; but `NormTo` also faults whenever the receiver denominator is
zero while the argument denominator is not, and `Norm` faults whenever the
denominators differ and either is zero. `Add`, `Sub`, `Mul`, `Div` and
`Cmp` contain no division at all (their embeddings are total functions),
so they never fault. -/
theorem C2_amended_fault_characterization :
    (∀ x : F, x.AssertO = none ↔ x.D = 0)
    ∧ (∀ x : F, x.ReduceO = none ↔ x.N = 0 ∧ x.D = 0)
    ∧ (∀ x y : Int, (LCMO x y).isSome = true)
    ∧ (∀ x y : F, F.NormToO x y = none ↔ x.D = 0 ∧ y.D ≠ 0)
    ∧ (∀ x y : F, NormO x y = none ↔ x.D ≠ y.D ∧ (x.D = 0 ∨ y.D = 0)) :=
  ⟨AssertO_eq_none_iff, ReduceO_eq_none_iff, LCMO_isSome,
    NormToO_eq_none_iff, NormO_eq_none_iff⟩

/-- Witness for the amended C2: `Assert` faulting at `F{3,0}` and `Reduce`
faulting at `F{0,0}`. -/
theorem C2_amended_witness :
    F.AssertO ⟨3, 0⟩ = none ∧ F.ReduceO ⟨0, 0⟩ = none :=
  ⟨(C2_amended_fault_characterization.1 ⟨3, 0⟩).mpr rfl,
   (C2_amended_fault_characterization.2.1 ⟨0, 0⟩).mpr ⟨rfl, rfl⟩⟩

/-- Scaling both fields by a common nonzero factor does not change the
result of `Reduce`. -/
theorem Reduce_mul_right (a b c : Int) (hb : b ≠ 0) (hc : c ≠ 0) :
    F.Reduce ⟨a * c, b * c⟩ = F.Reduce ⟨a, b⟩ := by
  have hgnz : (Int.gcd a b : Int) ≠ 0 := by
    simp only [ne_eq, Int.natCast_eq_zero]
    intro h0
    exact hb (Int.gcd_eq_zero_iff.mp h0).2
  have hga : (Int.gcd a b : Int) ∣ a := Int.gcd_dvd_left
  have hgb : (Int.gcd a b : Int) ∣ b := Int.gcd_dvd_right
  have ha' : (Int.gcd a b : Int) * Int.tdiv a (Int.gcd a b) = a := by
    rw [mul_comm]
    exact Int.tdiv_mul_cancel hga
  have hb' : (Int.gcd a b : Int) * Int.tdiv b (Int.gcd a b) = b := by
    rw [mul_comm]
    exact Int.tdiv_mul_cancel hgb
  have hcnat : ((c.natAbs : Int)) ≠ 0 := by
    simp only [ne_eq, Int.natCast_eq_zero, Int.natAbs_eq_zero]
    exact hc
  have hsc : Int.sign c * (c.natAbs : Int) = c := Int.sign_mul_natAbs c
  have hGnz : (Int.gcd a b : Int) * (c.natAbs : Int) ≠ 0 := mul_ne_zero hgnz hcnat
  have hnum : a * c = ((Int.gcd a b : Int) * (c.natAbs : Int))
      * (Int.tdiv a (Int.gcd a b) * Int.sign c) := by
    conv_lhs => rw [← ha', ← hsc]
    ring
  have hden : b * c = ((Int.gcd a b : Int) * (c.natAbs : Int))
      * (Int.tdiv b (Int.gcd a b) * Int.sign c) := by
    conv_lhs => rw [← hb', ← hsc]
    ring
  have e1 : Int.tdiv (a * c) ((Int.gcd a b : Int) * (c.natAbs : Int))
      = Int.tdiv a (Int.gcd a b) * Int.sign c := by
    rw [hnum]
    exact Int.mul_tdiv_cancel_left _ hGnz
  have e2 : Int.tdiv (b * c) ((Int.gcd a b : Int) * (c.natAbs : Int))
      = Int.tdiv b (Int.gcd a b) * Int.sign c := by
    rw [hden]
    exact Int.mul_tdiv_cancel_left _ hGnz
  have hqb : Int.tdiv b (Int.gcd a b) ≠ 0 := by
    intro h0
    apply hb
    rw [← hb', h0, mul_zero]
  have hgcd2 : GCD (a * c) (b * c) = (Int.gcd a b : Int) * (c.natAbs : Int) := by
    rw [GCD_eq_gcd, Int.gcd_mul_right]
    push_cast
    ring
  rw [Reduce_def, Reduce_def]
  dsimp only
  rw [hgcd2, e1, e2, GCD_eq_gcd a b]
  have hs : Int.sign c = 1 ∨ Int.sign c = -1 := by
    rcases lt_trichotomy c 0 with h | h | h
    · exact Or.inr (Int.sign_eq_neg_one_iff_neg.mpr h)
    · exact absurd h hc
    · exact Or.inl (Int.sign_eq_one_iff_pos.mpr h)
  rcases hs with hs | hs <;> rw [hs]
  · simp
  · simp only [mul_neg_one]
    by_cases hq : Int.tdiv b (Int.gcd a b) < 0
    · rw [if_pos hq, if_neg (by omega : ¬ -Int.tdiv b (Int.gcd a b) < 0)]
    · rw [if_neg hq, if_pos (by omega : -Int.tdiv b (Int.gcd a b) < 0)]
      simp [neg_neg]

/-- Scaling both fields by a common nonzero factor does not change the
result of `ReduceO` either. -/
theorem ReduceO_scale (a b c : Int) (hb : b ≠ 0) (hc : c ≠ 0) :
    F.ReduceO ⟨a * c, b * c⟩ = F.ReduceO ⟨a, b⟩ := by
  have h1 : ¬(a * c = 0 ∧ b * c = 0) := by
    rintro ⟨_, h2⟩
    rcases mul_eq_zero.mp h2 with h | h
    exacts [hb h, hc h]
  rw [ReduceO_eq_some _ h1, ReduceO_eq_some _ (fun h => hb h.2),
    Reduce_mul_right a b c hb hc]

/-- C5 fails on the code as stated: with `y = F{1,0}` (no overflow occurs,
the numbers are tiny) the round-trip loses `x`. -/
theorem C5_counterexample :
    F.ReduceO (F.Sub (F.Add ⟨1, 2⟩ ⟨1, 0⟩) ⟨1, 0⟩) ≠ F.ReduceO ⟨1, 2⟩ := by
  simp only [F.Add, F.Sub, F.ReduceO, checkedTdiv, GCD_eq_gcd]
  decide

/-- C5 amended: for fractions with nonzero denominators — in the
ideal-integer model, where denominators never overflow — the
addition/subtraction round-trip holds, faults included:
`x.Add(y).Sub(y).Reduce() == x.Reduce()`. -/
theorem C5_amended_roundtrip (x y : F) (hx : x.D ≠ 0) (hy : y.D ≠ 0) :
    ((x.Add y).Sub y).ReduceO = x.ReduceO := by
  by_cases h : x.D = y.D
  · have e1 : x.Add y = ⟨x.N + y.N, x.D⟩ := by
      unfold F.Add
      rw [if_neg (not_not_intro h)]
    have e2 : (x.Add y).Sub y = ⟨x.N + y.N - y.N, x.D⟩ := by
      rw [e1]
      unfold F.Sub
      rw [if_neg (not_not_intro h)]
    have e3 : (⟨x.N + y.N - y.N, x.D⟩ : F) = x := by
      have hn : x.N + y.N - y.N = x.N := by ring
      rw [hn]
    rw [e2, e3]
  · have e1 : x.Add y = ⟨x.N * y.D + y.N * x.D, x.D * y.D⟩ := by
      unfold F.Add
      rw [if_pos h]
    by_cases hc : x.D * y.D = y.D
    · have hx1 : x.D = 1 := by
        have : x.D * y.D = 1 * y.D := by rw [hc, one_mul]
        exact mul_right_cancel₀ hy this
      have e2 : (x.Add y).Sub y = ⟨x.N * y.D + y.N * x.D - y.N, x.D * y.D⟩ := by
        rw [e1]
        unfold F.Sub
        rw [if_neg (not_not_intro hc)]
      have e3 : (⟨x.N * y.D + y.N * x.D - y.N, x.D * y.D⟩ : F)
          = ⟨x.N * y.D, x.D * y.D⟩ := by
        have hn : x.N * y.D + y.N * x.D - y.N = x.N * y.D := by
          rw [hx1]
          ring
        rw [hn]
      rw [e2, e3]
      exact ReduceO_scale x.N x.D y.D hx hy
    · have e2 : (x.Add y).Sub y
          = ⟨(x.N * y.D + y.N * x.D) * y.D - y.N * (x.D * y.D), x.D * y.D * y.D⟩ := by
        rw [e1]
        unfold F.Sub
        rw [if_pos hc]
      have e3 : (⟨(x.N * y.D + y.N * x.D) * y.D - y.N * (x.D * y.D),
            x.D * y.D * y.D⟩ : F)
          = ⟨x.N * (y.D * y.D), x.D * (y.D * y.D)⟩ := by
        have hn : (x.N * y.D + y.N * x.D) * y.D - y.N * (x.D * y.D)
            = x.N * (y.D * y.D) := by ring
        have hd : x.D * y.D * y.D = x.D * (y.D * y.D) := by ring
        rw [hn, hd]
      rw [e2, e3]
      exact ReduceO_scale x.N x.D (y.D * y.D) hx (mul_ne_zero hy hy)

/-- Witness for the amended C5 at `x = 1/2`, `y = 2/1`. -/
theorem C5_amended_witness :
    ((F.Add ⟨1, 2⟩ ⟨2, 1⟩).Sub ⟨2, 1⟩).ReduceO = (⟨1, 2⟩ : F).ReduceO :=
  C5_amended_roundtrip ⟨1, 2⟩ ⟨2, 1⟩ (by decide) (by decide)

/-- The three-way comparison by an if-chain equals the sign of the
difference. -/
theorem ifCmp_eq_sign (u v : Int) :
    (if u < v then (-1 : Int) else if v < u then 1 else 0) = Int.sign (u - v) := by
  rcases lt_trichotomy u v with h | h | h
  · rw [if_pos h, Int.sign_eq_neg_one_iff_neg.mpr (sub_neg.mpr h)]
  · subst h
    rw [if_neg (lt_irrefl u), if_neg (lt_irrefl u), sub_self, Int.sign_zero]
  · rw [if_neg (not_lt.mpr h.le), if_pos h, Int.sign_eq_one_iff_pos.mpr (sub_pos.mpr h)]

/-- C6: with both denominators positive, `Cmp` computes the sign of the
cross-difference `x.N*y.D - y.N*x.D`, which orders the two rational
values. -/
theorem C6_cmp_sign_order (x y : F) (hx : 0 < x.D) (hy : 0 < y.D) :
    F.Cmp x y = Int.sign (x.N * y.D - y.N * x.D)
    ∧ (F.Cmp x y = -1 ↔ (x.N : ℚ) / (x.D : ℚ) < (y.N : ℚ) / (y.D : ℚ))
    ∧ (F.Cmp x y = 0 ↔ (x.N : ℚ) / (x.D : ℚ) = (y.N : ℚ) / (y.D : ℚ))
    ∧ (F.Cmp x y = 1 ↔ (y.N : ℚ) / (y.D : ℚ) < (x.N : ℚ) / (x.D : ℚ)) := by
  have main : F.Cmp x y = Int.sign (x.N * y.D - y.N * x.D) := by
    by_cases h : x.D = y.D
    · have e : F.Cmp x y = if x.N < y.N then (-1 : Int) else if y.N < x.N then 1 else 0 := by
        unfold F.Cmp
        simp only [if_neg (not_not_intro h)]
      rw [e, ifCmp_eq_sign, ← h, show x.N * x.D - y.N * x.D = (x.N - y.N) * x.D by ring,
        Int.sign_mul, Int.sign_eq_one_iff_pos.mpr hx, mul_one]
    · have e : F.Cmp x y
          = if x.N * y.D < y.N * x.D then (-1 : Int)
            else if y.N * x.D < x.N * y.D then 1 else 0 := by
        unfold F.Cmp
        simp only [if_pos h]
      rw [e, ifCmp_eq_sign]
  have hxq : (0 : ℚ) < (x.D : ℚ) := by exact_mod_cast hx
  have hyq : (0 : ℚ) < (y.D : ℚ) := by exact_mod_cast hy
  have hlt : x.N * y.D < y.N * x.D ↔ (x.N : ℚ) / (x.D : ℚ) < (y.N : ℚ) / (y.D : ℚ) := by
    rw [div_lt_div_iff₀ hxq hyq]
    constructor <;> intro h' <;> exact_mod_cast h'
  have heq : x.N * y.D = y.N * x.D ↔ (x.N : ℚ) / (x.D : ℚ) = (y.N : ℚ) / (y.D : ℚ) := by
    rw [div_eq_div_iff (ne_of_gt hxq) (ne_of_gt hyq)]
    constructor <;> intro h' <;> exact_mod_cast h'
  have hgt : y.N * x.D < x.N * y.D ↔ (y.N : ℚ) / (y.D : ℚ) < (x.N : ℚ) / (x.D : ℚ) := by
    rw [div_lt_div_iff₀ hyq hxq]
    constructor <;> intro h' <;> exact_mod_cast h'
  refine ⟨main, ?_, ?_, ?_⟩
  · rw [main, Int.sign_eq_neg_one_iff_neg, sub_neg, hlt]
  · rw [main, Int.sign_eq_zero_iff_zero, sub_eq_zero, heq]
  · rw [main, Int.sign_eq_one_iff_pos, sub_pos, hgt]

/-- Witness for C6 at `x = 1/2`, `y = 2/3`. -/
theorem C6_witness : F.Cmp ⟨1, 2⟩ ⟨2, 3⟩ = Int.sign ((1 : Int) * 3 - 2 * 2) :=
  (C6_cmp_sign_order ⟨1, 2⟩ ⟨2, 3⟩ (by decide) (by decide)).1

